import Mathlib

/-!
# Verification of the syntax-agnostic SRL scoring model

A shallow embedding of the scoring model in `model/srl.py` (a TensorFlow
graph): the predicate-conditioned bilinear role scorer with optional label
masking, the cross-entropy loss, gradient clipping, word dropout, the
dropout-gated forward pass, the batch-cache state machine of the epoch
loops, the stdout-redirect section around gradient construction, and the
parent-sentence deduplication of the evaluation epoch.

Tensors are embedded as functions out of `Fin`-indexed types; float
arithmetic is modelled over a linear ordered field (`ℚ` where the claims
are order/algebra only, `ℝ` where `exp`/`log` are needed).  Components
that live in repository modules absent from the sources at hand
(`layers`, `lstm`, `util.data_loader`) are modelled from the spec and
marked as such in their doc comments.
-/

namespace Srl

variable {α : Type} [LinearOrderedField α]

/-- Rectified linear unit, `tf.nn.relu` (srl.py line 236). -/
def relu (x : α) : α := max x 0

/-- Row-wise matrix product: `tf.matmul` of an embedding matrix with a
projection matrix (srl.py lines 218 and 225, `Wp = pred_embeddings @ Up`,
`Wr = role_embeddings @ Ur`). -/
def matMulRows {m p d : ℕ} (E : Fin m → Fin p → α) (U : Fin p → Fin d → α) :
    Fin m → Fin d → α :=
  fun i j => ∑ k, E i k * U k j

/-- The composed projection tensor `W` (srl.py lines 229-237):
`W[b,d,r] = relu(Wp[b,d] + Wr[r,d] + bias[d])`, i.e. the transposed
rectified sum of the tiled predicate and role projections plus the bias. -/
def scoreW {B R d : ℕ} (Wp : Fin B → Fin d → α) (Wr : Fin R → Fin d → α)
    (bias : Fin d → α) : Fin B → Fin d → Fin R → α :=
  fun b j r => relu (Wp b j + Wr r j + bias j)

/-- Per-token role logits (srl.py line 241):
`logits = tf.matmul(combined_outputs, W)`. -/
def rawLogits {B L R : ℕ} {ι : Type} [Fintype ι]
    (combined : Fin B → Fin L → ι → α) (W : Fin B → ι → Fin R → α) :
    Fin B → Fin L → Fin R → α :=
  fun b t r => ∑ j, combined b t j * W b j r

/-- The raw (pre-mask) logits assembled from the projection block
(srl.py lines 192-241). -/
def srlRawLogits {B L R d p q : ℕ} {ι : Type} [Fintype ι]
    (combined : Fin B → Fin L → ι → α)
    (predEmb : Fin B → Fin p → α) (Up : Fin p → Fin d → α)
    (roleEmb : Fin R → Fin q → α) (Ur : Fin q → Fin d → α)
    (bias : Fin d → α)
    (toD : ι → Fin d) : Fin B → Fin L → Fin R → α :=
  rawLogits combined
    (fun b j r => scoreW (matMulRows predEmb Up) (matMulRows roleEmb Ur) bias b (toD j) r)

/-- Label-restriction masking (srl.py lines 246-249): when
`args.restrict_labels` holds, the mask row of each sentence is tiled over
the token positions and multiplied elementwise into the logits; otherwise
the logits pass through unchanged. -/
def maskLogits (restrict : Bool) {B L R : ℕ} (mask : Fin B → Fin R → α)
    (z : Fin B → Fin L → Fin R → α) : Fin B → Fin L → Fin R → α :=
  if restrict then (fun b t r => z b t r * mask b r) else z

/-- The logits that reach both the softmax and the loss: raw logits after
optional masking (srl.py lines 241-257). -/
def srlLogits (restrict : Bool) {B L R d p q : ℕ} {ι : Type} [Fintype ι]
    (combined : Fin B → Fin L → ι → α)
    (predEmb : Fin B → Fin p → α) (Up : Fin p → Fin d → α)
    (roleEmb : Fin R → Fin q → α) (Ur : Fin q → Fin d → α)
    (bias : Fin d → α) (toD : ι → Fin d)
    (mask : Fin B → Fin R → α) : Fin B → Fin L → Fin R → α :=
  maskLogits restrict mask (srlRawLogits combined predEmb Up roleEmb Ur bias toD)

/-- `tf.nn.softmax` over one role row (srl.py line 251). -/
noncomputable def softmaxRow {R : ℕ} (z : Fin R → ℝ) : Fin R → ℝ :=
  fun r => Real.exp (z r) / ∑ s, Real.exp (z s)

/-- `tf.nn.sparse_softmax_cross_entropy_with_logits` for one token
(srl.py lines 255-257): `log (∑ exp z) - z[gold]`. -/
noncomputable def sparseXentRow {R : ℕ} (z : Fin R → ℝ) (gold : Fin R) : ℝ :=
  Real.log (∑ s, Real.exp (z s)) - z gold

/-- `tf.reduce_mean` over a `(B, L)` tensor (srl.py line 258): the sum of
all `B · L` entries divided by `B · L`. -/
noncomputable def reduceMean {B L : ℕ} (f : Fin B → Fin L → ℝ) : ℝ :=
  (∑ b, ∑ t, f b t) / (B * L)

/-- The per-token probability output `predictions` (srl.py line 251):
softmax of the possibly-masked logits. -/
noncomputable def srlPredictions (restrict : Bool) {B L R d p q : ℕ} {ι : Type} [Fintype ι]
    (combined : Fin B → Fin L → ι → ℝ)
    (predEmb : Fin B → Fin p → ℝ) (Up : Fin p → Fin d → ℝ)
    (roleEmb : Fin R → Fin q → ℝ) (Ur : Fin q → Fin d → ℝ)
    (bias : Fin d → ℝ) (toD : ι → Fin d)
    (mask : Fin B → Fin R → ℝ) : Fin B → Fin L → Fin R → ℝ :=
  fun b t => softmaxRow (srlLogits restrict combined predEmb Up roleEmb Ur bias toD mask b t)

/-- The scalar training loss (srl.py lines 255-258): mean over the batch
and token dimensions of the sparse cross-entropy of the possibly-masked
logits against the gold labels. -/
noncomputable def srlLoss (restrict : Bool) {B L R d p q : ℕ} {ι : Type} [Fintype ι]
    (combined : Fin B → Fin L → ι → ℝ)
    (predEmb : Fin B → Fin p → ℝ) (Up : Fin p → Fin d → ℝ)
    (roleEmb : Fin R → Fin q → ℝ) (Ur : Fin q → Fin d → ℝ)
    (bias : Fin d → ℝ) (toD : ι → Fin d)
    (mask : Fin B → Fin R → ℝ) (labels : Fin B → Fin L → Fin R) : ℝ :=
  reduceMean (fun b t =>
    sparseXentRow (srlLogits restrict combined predEmb Up roleEmb Ur bias toD mask b t)
      (labels b t))

/-- The loss exactly as the spec words it (spec §4.5): per-token
cross-entropy between the logits with invalid roles zeroed and the gold
role id, summed over all `B × L` token positions and divided by `B · L`.
This is the spec-side definition for the refinement claim about the loss;
it is written from the spec sentence, not from the code. -/
noncomputable def lossSpec {B L R : ℕ} (raw : Fin B → Fin L → Fin R → ℝ)
    (mask : Fin B → Fin R → ℝ) (labels : Fin B → Fin L → Fin R) : ℝ :=
  (∑ b, ∑ t, sparseXentRow (fun r => raw b t r * mask b r) (labels b t)) / (B * L)

/-- `tf.clip_by_value(g, lo, hi)` (srl.py line 275): clamp a value into
`[lo, hi]`. -/
def clipByValue (lo hi g : α) : α := min (max g lo) hi

/-- The gradient-clipping list comprehension (srl.py lines 275-276):
every (gradient value, variable) pair is replaced by the pair of the
clipped gradient value and the same variable; `apply_gradients` then
consumes exactly this list (line 277). -/
def clippedGvs {V : Type} (gvs : List (α × V)) : List (α × V) :=
  gvs.map (fun gv => (clipByValue (-1) 1 gv.1, gv.2))

/-- Word-dropout replacement probability.  Modelled from the spec:
`layers.word_dropout` (called at srl.py lines 60-66) lives in the
`layers` module, absent from the sources at hand; spec §4.1 gives the
probability `α / (freq + α)` with `freq` the word's corpus frequency. -/
def wordDropoutProb (a : ℚ) (freq : ℕ) : ℚ := a / (freq + a)

/-- Effective replacement probability with the runtime mode flag folded
in.  Modelled from the spec: at evaluation the flag (0.0) disables
replacement unconditionally, at training the flag is 1.0 and the base
probability applies (spec §4.1; the flag is `use_dropout_placeholder`,
srl.py lines 53 and 66). -/
def effWordDropoutProb (a : ℚ) (freq : ℕ) (useDropout : ℚ) : ℚ :=
  useDropout * wordDropoutProb a freq

/-- The hyperparameters of `SRL_Model.__init__` that determine tensor
widths (a fragment of the `args` record, srl.py lines 27-187). -/
structure Args where
  word_embed_size : ℕ
  pos_embed_size : ℕ
  lemma_embed_size : ℕ
  stag_embed_size : ℕ
  stag_feature_embed_size : ℕ
  state_size : ℕ
  use_stags : Bool
  use_stag_features : Bool

/-- Feature width of the concatenated per-token input (srl.py lines
104-136): trainable word embedding, pretrained word embedding, POS,
lemma, contextual (elmo) embedding, the optional supertag block, and the
one-wide predicate marker channel. -/
def inputSize (args : Args) (pretrEmbedSize elmoSize : ℕ) : ℕ :=
  args.word_embed_size + pretrEmbedSize + args.pos_embed_size +
    args.lemma_embed_size + elmoSize +
    (if args.use_stags then
        args.stag_embed_size +
          (if args.use_stag_features then args.stag_feature_embed_size else 0)
      else 0) + 1

/-- Per-token output width of the bidirectional encoder.  Modelled from
the spec: the `lstm` module is absent from the sources at hand; spec §4.2
contracts the encoder to map `(batch, length, feature)` input to
`(batch, length, 2·state_size)` output (forward and backward passes of
width `state_size`, concatenated). -/
def biEncoderOutputSize (args : Args) : ℕ := 2 * args.state_size

/-- Width of `combined_outputs` (srl.py lines 182-184): each token's
encoder state concatenated with the sentence's tiled predicate encoder
state. -/
def combinedOutputSize (args : Args) : ℕ :=
  biEncoderOutputSize args + biEncoderOutputSize args

/-- The hardcoded `lstm_output_size` (srl.py line 187). -/
def lstmOutputSizeArg (args : Args) : ℕ := args.state_size * 4

/-- One epoch's cache access (srl.py lines 368-375 and 399-406): if the
cached list is `none`, invoke the producer, store its output and record
one invocation; otherwise reuse the cached list with no invocation.
Returns (batches processed this epoch, new cache, producer invocations). -/
def loadBatchCache {β : Type} (cache : Option (List β)) (producer : Unit → List β) :
    List β × Option (List β) × ℕ :=
  match cache with
  | none => let bs := producer () ; (bs, some bs, 1)
  | some bs => (bs, some bs, 0)

/-- `n` successive epochs over one split, threading the cache exactly as
`run_training_epoch` / `run_testing_epoch` do (the cache field starts as
`None` in `__init__`, srl.py lines 296-297, and is only ever written by
the load-on-first-use branch).  Returns (final cache, total producer
invocations, list of the batch lists processed by each epoch in order). -/
def runEpochs {β : Type} (producer : Unit → List β) :
    ℕ → Option (List β) → Option (List β) × ℕ × List (List β)
  | 0, cache => (cache, 0, [])
  | n + 1, cache =>
      let step := loadBatchCache cache producer
      let rest := runEpochs producer n step.2.1
      (rest.1, step.2.2 + rest.2.1, step.1 :: rest.2.2)

/-- The process's standard-output binding: either the original stream or
the `Redirect` object installed over it (srl.py lines 19-23, 269-272). -/
inductive StdoutState
  | original
  | redirected
  deriving DecidableEq

/-- What a write to stdout emits: the original stream emits the text,
while `Redirect.write` is `pass` and discards it (srl.py lines 22-23). -/
def stdoutEmit : StdoutState → String → List String
  | StdoutState.original, s => [s]
  | StdoutState.redirected, _ => []

/-- The gradient-construction section (srl.py lines 269-272):
`Redirect()` captures the current stdout, `sys.stdout` is then set to the
redirect object, `compute_gradients` runs (and may raise), and only the
straight-line fall-through statement restores `sys.stdout` from the saved
stream — there is no `try`/`finally`.  Returns (stdout while
`compute_gradients` runs, whether the exception propagated, stdout after
the section). -/
def gradRedirectSection (computeRaises : Bool) (s0 : StdoutState) :
    StdoutState × Bool × StdoutState :=
  let saved := s0
  let during := StdoutState.redirected
  if computeRaises then (during, true, during)
  else (during, false, saved)

/-- A predicate-specific sentence of the evaluation loop, reduced to the
pair (parent sentence id, predicate id); `sent.parent` is the first
component (srl.py lines 415-421). -/
abbrev PredSent : Type := ℕ × ℕ

/-- The events of an evaluation epoch that touch sentences: attaching a
prediction to a predicate-specific sentence (`sent.add_predictions`,
srl.py line 416) and serializing a parent sentence to the output file
(`f.write`, srl.py line 435). -/
inductive SrlEvent
  | attach (parent pred : ℕ)
  | write (parent : ℕ)
  deriving DecidableEq

/-- Whether an event is a file write. -/
def SrlEvent.isWrite : SrlEvent → Bool
  | SrlEvent.write _ => true
  | _ => false

/-- The `predicted_sents` accumulator (srl.py lines 420-421): walk the
epoch's predicate-specific sentences in order and append each parent the
first time it is seen (`if sent.parent not in predicted_sents`). -/
def collectParents : List PredSent → List ℕ → List ℕ
  | [], acc => acc
  | s :: rest, acc =>
      collectParents rest (if s.1 ∈ acc then acc else acc ++ [s.1])

/-- The lines of the serialized prediction file (srl.py lines 433-435):
one line per element of `predicted_sents`, written after the batch loop
has finished. -/
def predictionFile (sents : List PredSent) : List ℕ :=
  collectParents sents []

/-- The epoch's event trace (srl.py lines 409-435): the batch loop first
attaches predictions to every predicate-specific sentence in order, and
only after the whole loop does the write loop serialize the collected
parents. -/
def epochTrace (sents : List PredSent) : List SrlEvent :=
  (sents.map fun s => SrlEvent.attach s.1 s.2) ++
    (predictionFile sents).map SrlEvent.write

/-- The dropout keep-probability computed from the runtime mode flag
(srl.py lines 144-148): `1 - (1 - rate) * use_dropout`, so the flag value
0.0 yields keep-probability 1 (dropout off) and 1.0 yields `rate`. -/
def dropoutKeepProb (rate useDropout : ℝ) : ℝ := 1 - (1 - rate) * useDropout

/-- The flag value fed by `run_testing_batch` (srl.py line 356). -/
def testingDropoutFlag : ℝ := 0

/-- A uniform random stream with all samples in `[0, 1)`. -/
def UnitStream (u : ℕ → ℝ) : Prop := ∀ i, 0 ≤ u i ∧ u i < 1

/-- The uniform samples a forward pass may consume: one stream for word
dropout and per-timestep streams for input and recurrent dropout of the
two scan directions. -/
structure ForwardRng where
  word : ℕ → ℝ
  inFwd : ℕ → ℕ → ℝ
  recFwd : ℕ → ℕ → ℝ
  inBwd : ℕ → ℕ → ℝ
  recBwd : ℕ → ℕ → ℝ

/-- All streams of the bundle are uniform samples in `[0, 1)`. -/
def ForwardRng.Valid (r : ForwardRng) : Prop :=
  UnitStream r.word ∧ (∀ t, UnitStream (r.inFwd t)) ∧
    (∀ t, UnitStream (r.recFwd t)) ∧ (∀ t, UnitStream (r.inBwd t)) ∧
    (∀ t, UnitStream (r.recBwd t))

/-- Inverted-dropout mask on a vector.  Modelled from the spec: dropout
is applied to layer inputs and recurrent connections inside the `lstm`
module, absent from the sources at hand (spec §4.2); each component is
kept (and rescaled by the keep-probability) when its uniform sample falls
below the keep-probability, else zeroed. -/
noncomputable def dropVec (keep : ℝ) (u : ℕ → ℝ) (v : ℕ → ℝ) : ℕ → ℝ :=
  fun i => if u i < keep then v i / keep else 0

/-- One directional recurrent scan with input and recurrent dropout.
Modelled from the spec: the cell (standard or highway-gated) is a
deterministic state transformer; randomness enters only through the two
dropout sites (spec §4.2).  `t` counts timesteps to index the streams. -/
noncomputable def rnnScan (cell : (ℕ → ℝ) → (ℕ → ℝ) → ℕ → ℝ)
    (keepIn keepRec : ℝ) (uIn uRec : ℕ → ℕ → ℝ) :
    (ℕ → ℝ) → ℕ → List (ℕ → ℝ) → List (ℕ → ℝ)
  | _, _, [] => []
  | h, t, x :: xs =>
      let h' := cell (dropVec keepRec (uRec t) h) (dropVec keepIn (uIn t) x)
      h' :: rnnScan cell keepIn keepRec uIn uRec h' (t + 1) xs

/-- The same scan with no dropout sites: the deterministic reference
computation. -/
def pureScan (cell : (ℕ → ℝ) → (ℕ → ℝ) → ℕ → ℝ) :
    (ℕ → ℝ) → List (ℕ → ℝ) → List (ℕ → ℝ)
  | _, [] => []
  | h, x :: xs =>
      let h' := cell h x
      h' :: pureScan cell h' xs

/-- Concatenation of two per-token vectors, the first of width `n`. -/
def concatVec (n : ℕ) (v w : ℕ → ℝ) : ℕ → ℝ :=
  fun i => if i < n then v i else w (i - n)

/-- The bidirectional encoder layer.  Modelled from the spec: two
independent passes in forward and backward order, each `state_size` wide,
concatenated per token (spec §4.2). -/
noncomputable def biEncode (cellF cellB : (ℕ → ℝ) → (ℕ → ℝ) → ℕ → ℝ)
    (S : ℕ) (keepIn keepRec : ℝ) (rng : ForwardRng) (h0 : ℕ → ℝ)
    (xs : List (ℕ → ℝ)) : List (ℕ → ℝ) :=
  List.zipWith (concatVec S)
    (rnnScan cellF keepIn keepRec rng.inFwd rng.recFwd h0 0 xs)
    ((rnnScan cellB keepIn keepRec rng.inBwd rng.recBwd h0 0 xs.reverse).reverse)

/-- Word dropout applied to a sentence.  Modelled from the spec: each
token's word id is replaced by the unknown id with probability
`use_dropout · a / (freq + a)` — the flag forces probability 0 at
evaluation (spec §4.1); the decision compares the token's uniform sample
against the probability. -/
noncomputable def applyWordDropout (a : ℝ) (unkIdx : ℕ) (useDropout : ℝ)
    (u : ℕ → ℝ) (wordsFreqs : List (ℕ × ℕ)) : List ℕ :=
  wordsFreqs.enum.map fun p =>
    if u p.1 < useDropout * (a / ((p.2.2 : ℝ) + a)) then unkIdx else p.2.1

/-- Softmax over a list of logits (srl.py line 251). -/
noncomputable def softmaxList (z : List ℝ) : List ℝ :=
  z.map fun x => Real.exp x / (z.map Real.exp).sum

/-- The evaluation-relevant forward pass of one sentence, from word ids
and frequencies to per-token role probability rows (srl.py lines 59-251).
The deterministic pieces — the feature composition `embed` (position and
word id to feature vector), the two scan cells, and the predicate-
conditioned role scorer `roleScore` (token state and predicate state to
logit row) — are universally quantified parameters holding the fixed
model weights; every random choice enters through `rng` at the dropout
sites, whose probabilities are derived from the `useDropout` flag. -/
noncomputable def sentForward (cellF cellB : (ℕ → ℝ) → (ℕ → ℝ) → ℕ → ℝ)
    (embed : ℕ → ℕ → ℕ → ℝ) (roleScore : (ℕ → ℝ) → (ℕ → ℝ) → List ℝ)
    (S : ℕ) (a : ℝ) (unkIdx : ℕ) (dropRate recDropRate : ℝ)
    (restrict : Bool) (mask : List ℝ) (predIdx : ℕ)
    (wordsFreqs : List (ℕ × ℕ)) (useDropout : ℝ) (rng : ForwardRng) :
    List (List ℝ) :=
  let ws := applyWordDropout a unkIdx useDropout rng.word wordsFreqs
  let inputs := ws.enum.map fun p => embed p.1 p.2
  let keepIn := dropoutKeepProb dropRate useDropout
  let keepRec := dropoutKeepProb recDropRate useDropout
  let outs := biEncode cellF cellB S keepIn keepRec rng (fun _ => 0) inputs
  let predState := outs.getD predIdx (fun _ => 0)
  let logits := outs.map fun o => roleScore o predState
  let masked := if restrict then logits.map (fun z => z.zipWith (· * ·) mask) else logits
  masked.map softmaxList

/-- The dropout-free reference forward pass: `sentForward` with every
dropout site removed.  Used to factor the determinism proof. -/
noncomputable def sentForwardPure (cellF cellB : (ℕ → ℝ) → (ℕ → ℝ) → ℕ → ℝ)
    (embed : ℕ → ℕ → ℕ → ℝ) (roleScore : (ℕ → ℝ) → (ℕ → ℝ) → List ℝ)
    (S : ℕ) (restrict : Bool) (mask : List ℝ) (predIdx : ℕ)
    (wordsFreqs : List (ℕ × ℕ)) : List (List ℝ) :=
  let ws := wordsFreqs.map Prod.fst
  let inputs := ws.enum.map fun p => embed p.1 p.2
  let outs := List.zipWith (concatVec S)
    (pureScan cellF (fun _ => 0) inputs)
    ((pureScan cellB (fun _ => 0) inputs.reverse).reverse)
  let predState := outs.getD predIdx (fun _ => 0)
  let logits := outs.map fun o => roleScore o predState
  let masked := if restrict then logits.map (fun z => z.zipWith (· * ·) mask) else logits
  masked.map softmaxList

end Srl

namespace Srl

/-! ## Theorems -/

/-- C2: the scalar training loss equals the per-token sparse softmax
cross-entropy between the gold role id and the logits as they stand
after masking — when restriction is enabled the zeroed logits, not the
raw pre-mask logits, feed the loss — averaged with equal weight over all
`B × L` token positions of the batch. -/
theorem loss_is_mean_xent_of_masked_logits {B L R d p q : ℕ} {ι : Type} [Fintype ι]
    (combined : Fin B → Fin L → ι → ℝ) (predEmb : Fin B → Fin p → ℝ)
    (Up : Fin p → Fin d → ℝ) (roleEmb : Fin R → Fin q → ℝ)
    (Ur : Fin q → Fin d → ℝ) (bias : Fin d → ℝ) (toD : ι → Fin d)
    (mask : Fin B → Fin R → ℝ) (labels : Fin B → Fin L → Fin R) :
    srlLoss true combined predEmb Up roleEmb Ur bias toD mask labels =
      lossSpec (srlRawLogits combined predEmb Up roleEmb Ur bias toD) mask labels := by
  simp [srlLoss, lossSpec, reduceMean, srlLogits, maskLogits]

/-- C10: when label restriction is disabled, the loss and the per-token
probability outputs do not depend on the role-validity mask input — two
runs differing only in the mask produce identical losses and identical
probabilities. -/
theorem unrestricted_output_mask_independent {B L R d p q : ℕ} {ι : Type} [Fintype ι]
    (combined : Fin B → Fin L → ι → ℝ) (predEmb : Fin B → Fin p → ℝ)
    (Up : Fin p → Fin d → ℝ) (roleEmb : Fin R → Fin q → ℝ)
    (Ur : Fin q → Fin d → ℝ) (bias : Fin d → ℝ) (toD : ι → Fin d)
    (labels : Fin B → Fin L → Fin R) (mask1 mask2 : Fin B → Fin R → ℝ) :
    srlLoss false combined predEmb Up roleEmb Ur bias toD mask1 labels =
      srlLoss false combined predEmb Up roleEmb Ur bias toD mask2 labels ∧
    srlPredictions false combined predEmb Up roleEmb Ur bias toD mask1 =
      srlPredictions false combined predEmb Up roleEmb Ur bias toD mask2 := by
  constructor
  · simp [srlLoss, srlLogits, maskLogits]
  · funext b t
    simp [srlPredictions, srlLogits, maskLogits]

/-- C3: every gradient value in the list handed to `apply_gradients`
lies in the closed interval `[-1, 1]`, whatever the raw gradients were. -/
theorem applied_gradients_clipped {V : Type} (gvs : List (ℚ × V)) (g : ℚ) (v : V)
    (h : (g, v) ∈ clippedGvs gvs) : -1 ≤ g ∧ g ≤ 1 := by
  rcases List.mem_map.mp h with ⟨gv, _, hgv⟩
  have hg : g = clipByValue (-1) 1 gv.1 := (Prod.mk.injEq _ _ _ _ ▸ hgv).1.symm
  subst hg
  refine ⟨le_min (le_max_right _ _) (by norm_num), min_le_right _ _⟩

/-- Witness for `applied_gradients_clipped`: a raw gradient of `5` is
applied as `1`, which lies in `[-1, 1]`. -/
theorem applied_gradients_clipped_witness : (-1 : ℚ) ≤ 1 ∧ (1 : ℚ) ≤ 1 :=
  applied_gradients_clipped [((5 : ℚ), (0 : ℕ))] 1 0 (by decide)

/-- C4: the combined per-token representation handed to the role scorer
has width exactly `4 × state_size`, for every configuration and in
particular for every setting of the optional supertag flags, and it
agrees with the hardcoded `lstm_output_size`. -/
theorem combined_width_four_state (args : Args) (b1 b2 : Bool) :
    combinedOutputSize { args with use_stags := b1, use_stag_features := b2 } =
      4 * args.state_size ∧
    combinedOutputSize args = lstmOutputSizeArg args := by
  constructor <;> simp [combinedOutputSize, biEncoderOutputSize, lstmOutputSizeArg] <;> ring

/-- C5: the word-dropout replacement probability `α / (freq + α)` is
strictly decreasing in the recorded frequency for fixed `α > 0`, equals
`α / (0 + α) = 1` at recorded frequency `0`, and is forced to `0` for
every frequency when the runtime mode flag is `0`. -/
theorem word_dropout_prob_props (a : ℚ) (ha : 0 < a) :
    (∀ f1 f2 : ℕ, f1 < f2 → wordDropoutProb a f2 < wordDropoutProb a f1) ∧
    wordDropoutProb a 0 = 1 ∧
    (∀ f : ℕ, effWordDropoutProb a f 0 = 0) := by
  refine ⟨fun f1 f2 hf => ?_, ?_, fun f => by simp [effWordDropoutProb]⟩
  · have h1 : (0 : ℚ) < (f1 : ℚ) + a := by positivity
    have h2 : ((f1 : ℚ) + a) < ((f2 : ℚ) + a) := by
      have : (f1 : ℚ) < (f2 : ℚ) := by exact_mod_cast hf
      linarith
    exact div_lt_div_of_pos_left ha h1 h2
  · simp [wordDropoutProb, ne_of_gt ha]

/-- Witness for `word_dropout_prob_props`: at `α = 1` the probability
falls strictly from frequency 0 to frequency 1, and equals 1 at
frequency 0. -/
theorem word_dropout_prob_props_witness :
    wordDropoutProb 1 1 < wordDropoutProb 1 0 ∧ wordDropoutProb 1 0 = 1 :=
  ⟨(word_dropout_prob_props 1 (by norm_num)).1 0 1 (by norm_num),
    (word_dropout_prob_props 1 (by norm_num)).2.1⟩

/-- C8 counterexample: when gradient construction raises, the code
(which has no `try`/`finally` around `compute_gradients`) leaves
standard output bound to the discarding redirect object instead of
restoring the original stream — the claim's "restored on every exit
path, including failure" is false at this input. -/
theorem stdout_restore_counterexample :
    (gradRedirectSection true StdoutState.original).2.2 = StdoutState.redirected ∧
    StdoutState.redirected ≠ StdoutState.original := by
  decide

/-- C8 as amended: standard output is silenced exactly for the duration
of gradient construction and is restored to the saved original stream on
the normal (non-raising) exit path; writes during the section are
discarded; but on the exception path the redirect persists as a global
override. -/
theorem stdout_redirect_amended :
    (∀ s0, gradRedirectSection false s0 = (StdoutState.redirected, false, s0)) ∧
    (∀ msg, stdoutEmit StdoutState.redirected msg = []) ∧
    (∀ s0, (gradRedirectSection true s0).2.2 = StdoutState.redirected) :=
  ⟨fun _ => rfl, fun _ => rfl, fun _ => rfl⟩

/-- C1: with label restriction enabled, the post-mask logit of any role
whose mask entry is 0 is exactly 0 (multiplicative masking), and — as
the second conjunct exhibits — that zero is not necessarily the minimum
logit of the token's row: another role of the same row can carry a
strictly smaller (negative) masked logit. -/
theorem masked_logit_zero {B L R d p q : ℕ} {ι : Type} [Fintype ι]
    (combined : Fin B → Fin L → ι → ℚ) (predEmb : Fin B → Fin p → ℚ)
    (Up : Fin p → Fin d → ℚ) (roleEmb : Fin R → Fin q → ℚ)
    (Ur : Fin q → Fin d → ℚ) (bias : Fin d → ℚ) (toD : ι → Fin d)
    (mask : Fin B → Fin R → ℚ) (b : Fin B) (t : Fin L) (r : Fin R)
    (hm : mask b r = 0) :
    srlLogits true combined predEmb Up roleEmb Ur bias toD mask b t r = 0 ∧
    ∃ (cmb : Fin 1 → Fin 1 → Fin 1 → ℚ) (pe : Fin 1 → Fin 1 → ℚ)
      (up : Fin 1 → Fin 1 → ℚ) (re : Fin 2 → Fin 1 → ℚ)
      (ur : Fin 1 → Fin 1 → ℚ) (bs : Fin 1 → ℚ) (mk : Fin 1 → Fin 2 → ℚ),
      mk 0 0 = 0 ∧
      srlLogits true cmb pe up re ur bs id mk 0 0 0 = 0 ∧
      srlLogits true cmb pe up re ur bs id mk 0 0 1 <
        srlLogits true cmb pe up re ur bs id mk 0 0 0 := by
  constructor
  · simp [srlLogits, maskLogits, hm]
  · refine ⟨fun _ _ _ => -1, fun _ _ => 0, fun _ _ => 0,
      fun r _ => if r = 1 then 1 else 0, fun _ _ => 1, fun _ => 0,
      fun _ r => if r = 0 then 0 else 1, by norm_num, ?_, ?_⟩ <;>
    simp [srlLogits, srlRawLogits, rawLogits, matMulRows, scoreW, maskLogits,
      relu, Fin.sum_univ_one, Fin.sum_univ_two]

/-- Witness for `masked_logit_zero`: a concrete all-ones configuration
with an all-zero mask row yields a masked logit of exactly 0. -/
theorem masked_logit_zero_witness :
    srlLogits true (fun _ _ _ => (1 : ℚ) : Fin 1 → Fin 1 → Fin 1 → ℚ)
      (fun _ _ => 1 : Fin 1 → Fin 1 → ℚ) (fun _ _ => 1 : Fin 1 → Fin 1 → ℚ)
      (fun _ _ => 1 : Fin 1 → Fin 1 → ℚ) (fun _ _ => 1 : Fin 1 → Fin 1 → ℚ)
      (fun _ => 1 : Fin 1 → ℚ) (id : Fin 1 → Fin 1)
      (fun _ _ => 0 : Fin 1 → Fin 1 → ℚ) 0 0 0 = 0 :=
  (masked_logit_zero _ _ _ _ _ _ id _ 0 0 0 rfl).1

/-- Helper: once the cache holds a list, every further epoch returns that
list without invoking the producer. -/
theorem runEpochs_cached {β : Type} (producer : Unit → List β) (bs : List β) :
    ∀ n : ℕ, runEpochs producer n (some bs) = (some bs, 0, List.replicate n bs) := by
  intro n
  induction n with
  | zero => rfl
  | succ n ih => simp [runEpochs, loadBatchCache, ih, List.replicate_succ]

/-- C7: over `n` epochs on one split of a freshly constructed model
(cache `none`), the external batch producer is invoked exactly
`min n 1` times — at most once, on the first epoch — and every epoch
processes the same batch list, in the same order, as the producer's
single output. -/
theorem batch_producer_invoked_once {β : Type} (producer : Unit → List β) (n : ℕ) :
    (runEpochs producer n none).2.1 = min n 1 ∧
    (runEpochs producer n none).2.2 = List.replicate n (producer ()) := by
  cases n with
  | zero => exact ⟨rfl, rfl⟩
  | succ n =>
      constructor
      · simp [runEpochs, loadBatchCache, runEpochs_cached]
      · simp [runEpochs, loadBatchCache, runEpochs_cached, List.replicate_succ]

/-- Helper: the collected parent list is duplicate-free whenever the
accumulator is (the membership test guards every append). -/
theorem collectParents_nodup :
    ∀ (sents : List PredSent) (acc : List ℕ), acc.Nodup →
      (collectParents sents acc).Nodup := by
  intro sents
  induction sents with
  | nil => intro acc h; exact h
  | cons s rest ih =>
      intro acc h
      by_cases hs : s.1 ∈ acc
      · simpa [collectParents, hs] using ih acc h
      · have h2 : (acc ++ [s.1]).Nodup := by
          rw [List.nodup_append]
          exact ⟨h, List.nodup_singleton _, by simpa using hs⟩
        simpa [collectParents, hs] using ih _ h2

/-- Helper: membership in the collected parent list is membership in the
accumulator or among the parents of the processed sentences. -/
theorem collectParents_mem :
    ∀ (sents : List PredSent) (acc : List ℕ) (x : ℕ),
      x ∈ collectParents sents acc ↔ x ∈ acc ∨ x ∈ sents.map Prod.fst := by
  intro sents
  induction sents with
  | nil => intro acc x; simp [collectParents]
  | cons s rest ih =>
      intro acc x
      by_cases hs : s.1 ∈ acc
      · rw [show collectParents (s :: rest) acc = collectParents rest acc by
          simp [collectParents, hs]]
        rw [ih]
        simp only [List.map_cons, List.mem_cons]
        constructor
        · tauto
        · rintro (h | h | h)
          · exact Or.inl h
          · subst h; exact Or.inl hs
          · exact Or.inr h
      · rw [show collectParents (s :: rest) acc = collectParents rest (acc ++ [s.1]) by
          simp [collectParents, hs]]
        rw [ih]
        simp only [List.mem_append, List.mem_singleton, List.map_cons, List.mem_cons]
        tauto

/-- C9: in an evaluation epoch every parent sentence that occurs appears
exactly once among the serialized prediction lines — even when several
predicate-specific sentences share the parent — and the epoch's event
trace is its attach events followed by its write events: every parent is
serialized only after all predicate-specific predictions of the epoch
have been attached. -/
theorem parent_serialized_once (sents : List PredSent) (parent : ℕ)
    (hp : parent ∈ sents.map Prod.fst) :
    (predictionFile sents).count parent = 1 ∧
    epochTrace sents =
      (epochTrace sents).filter (fun e => !e.isWrite) ++
        (epochTrace sents).filter (fun e => e.isWrite) := by
  constructor
  · exact List.count_eq_one_of_mem (collectParents_nodup sents [] List.nodup_nil)
      ((collectParents_mem sents [] parent).mpr (Or.inr hp))
  · have hA : ∀ e ∈ sents.map (fun s => SrlEvent.attach s.1 s.2), e.isWrite = false := by
      intro e he
      rcases List.mem_map.mp he with ⟨s, _, rfl⟩
      rfl
    have hW : ∀ e ∈ (predictionFile sents).map SrlEvent.write, e.isWrite = true := by
      intro e he
      rcases List.mem_map.mp he with ⟨x, _, rfl⟩
      rfl
    rw [epochTrace, List.filter_append, List.filter_append]
    rw [List.filter_eq_self.mpr (by intro e he; simp [hA e he]),
        List.filter_eq_nil_iff.mpr (by intro e he; simp [hW e he]),
        List.filter_eq_nil_iff.mpr (by intro e he; simp [hA e he]),
        List.filter_eq_self.mpr (by intro e he; simp [hW e he])]
    simp

/-- Witness for `parent_serialized_once`: parent 1 occurs with two
predicates and parent 2 with one; the file lists parent 1 exactly once
and the trace is attaches followed by writes. -/
theorem parent_serialized_once_witness :
    (predictionFile [(1, 0), (1, 1), (2, 0)]).count 1 = 1 ∧
    epochTrace [(1, 0), (1, 1), (2, 0)] =
      (epochTrace [(1, 0), (1, 1), (2, 0)]).filter (fun e => !e.isWrite) ++
        (epochTrace [(1, 0), (1, 1), (2, 0)]).filter (fun e => e.isWrite) :=
  parent_serialized_once [(1, 0), (1, 1), (2, 0)] 1 (by decide)

/-- Helper: with keep-probability 1 the inverted-dropout mask is the
identity on every vector, for any uniform sample stream in `[0, 1)`. -/
theorem dropVec_keep_one (u v : ℕ → ℝ) (hu : UnitStream u) : dropVec 1 u v = v := by
  funext i
  simp [dropVec, (hu i).2]

/-- Helper: with both keep-probabilities 1 the directional scan ignores
its sample streams and computes the dropout-free scan. -/
theorem rnnScan_keep_one (cell : (ℕ → ℝ) → (ℕ → ℝ) → ℕ → ℝ)
    (uIn uRec : ℕ → ℕ → ℝ) (hIn : ∀ t, UnitStream (uIn t))
    (hRec : ∀ t, UnitStream (uRec t)) :
    ∀ (xs : List (ℕ → ℝ)) (h : ℕ → ℝ) (t : ℕ),
      rnnScan cell 1 1 uIn uRec h t xs = pureScan cell h xs := by
  intro xs
  induction xs with
  | nil => intro h t; rfl
  | cons x rest ih =>
      intro h t
      simp only [rnnScan, pureScan,
        dropVec_keep_one (uRec t) h (hRec t), dropVec_keep_one (uIn t) x (hIn t)]
      rw [ih]

/-- Helper: the runtime flag value 0 turns the dropout rate formula of
srl.py lines 146-148 into keep-probability 1. -/
theorem dropoutKeepProb_zero (rate : ℝ) : dropoutKeepProb rate 0 = 1 := by
  simp [dropoutKeepProb]

/-- Helper: with the flag at 0 the word-dropout probability is 0 and no
word id is ever replaced. -/
theorem applyWordDropout_zero (a : ℝ) (unk : ℕ) (u : ℕ → ℝ) (hu : UnitStream u)
    (wf : List (ℕ × ℕ)) : applyWordDropout a unk 0 u wf = wf.map Prod.fst := by
  have hcong : ∀ p ∈ wf.enum,
      (if u p.1 < 0 * (a / ((p.2.2 : ℝ) + a)) then unk else p.2.1) = p.2.1 := by
    intro p _
    have h0 : ¬ u p.1 < 0 := not_lt.mpr (hu p.1).1
    simp [h0]
  unfold applyWordDropout
  rw [List.map_congr_left hcong]
  show wf.enum.map (Prod.fst ∘ Prod.snd) = wf.map Prod.fst
  rw [← List.map_map, List.enum_map_snd]

/-- Helper: at flag value 0 the forward pass coincides with the
dropout-free reference pass, for every valid sample bundle. -/
theorem sentForward_eval_pure (cellF cellB : (ℕ → ℝ) → (ℕ → ℝ) → ℕ → ℝ)
    (embed : ℕ → ℕ → ℕ → ℝ) (roleScore : (ℕ → ℝ) → (ℕ → ℝ) → List ℝ)
    (S : ℕ) (a : ℝ) (unkIdx : ℕ) (dropRate recDropRate : ℝ)
    (restrict : Bool) (mask : List ℝ) (predIdx : ℕ)
    (wordsFreqs : List (ℕ × ℕ)) (rng : ForwardRng) (hv : rng.Valid) :
    sentForward cellF cellB embed roleScore S a unkIdx dropRate recDropRate
        restrict mask predIdx wordsFreqs testingDropoutFlag rng =
      sentForwardPure cellF cellB embed roleScore S restrict mask predIdx wordsFreqs := by
  obtain ⟨hw, hif, hrf, hib, hrb⟩ := hv
  simp only [sentForward, sentForwardPure, testingDropoutFlag, biEncode,
    applyWordDropout_zero a unkIdx rng.word hw wordsFreqs,
    dropoutKeepProb_zero,
    rnnScan_keep_one cellF rng.inFwd rng.recFwd hif hrf,
    rnnScan_keep_one cellB rng.inBwd rng.recBwd hib hrb]

/-- C6: with the dropout mode switch at 0 (the value `run_testing_batch`
feeds) and the model weights held fixed, the forward pass yields the
same per-token probability rows whatever uniform samples the two runs
draw — the evaluation-mode forward pass is deterministic. -/
theorem eval_forward_deterministic (cellF cellB : (ℕ → ℝ) → (ℕ → ℝ) → ℕ → ℝ)
    (embed : ℕ → ℕ → ℕ → ℝ) (roleScore : (ℕ → ℝ) → (ℕ → ℝ) → List ℝ)
    (S : ℕ) (a : ℝ) (unkIdx : ℕ) (dropRate recDropRate : ℝ)
    (restrict : Bool) (mask : List ℝ) (predIdx : ℕ)
    (wordsFreqs : List (ℕ × ℕ)) (rng1 rng2 : ForwardRng)
    (h1 : rng1.Valid) (h2 : rng2.Valid) :
    sentForward cellF cellB embed roleScore S a unkIdx dropRate recDropRate
        restrict mask predIdx wordsFreqs testingDropoutFlag rng1 =
      sentForward cellF cellB embed roleScore S a unkIdx dropRate recDropRate
        restrict mask predIdx wordsFreqs testingDropoutFlag rng2 := by
  rw [sentForward_eval_pure cellF cellB embed roleScore S a unkIdx dropRate
        recDropRate restrict mask predIdx wordsFreqs rng1 h1,
      sentForward_eval_pure cellF cellB embed roleScore S a unkIdx dropRate
        recDropRate restrict mask predIdx wordsFreqs rng2 h2]

/-- Witness for `eval_forward_deterministic`: two concrete distinct
sample bundles (constant 1/3 and constant 1/2) give equal evaluation
outputs on a concrete one-token input. -/
theorem eval_forward_deterministic_witness :
    sentForward (fun _ _ _ => 0) (fun _ _ _ => 0) (fun _ _ _ => 0) (fun _ _ => [])
        1 1 0 (1 / 2) (1 / 2) false [] 0 [(1, 2)] testingDropoutFlag
        ⟨fun _ => 1 / 3, fun _ _ => 1 / 3, fun _ _ => 1 / 3, fun _ _ => 1 / 3,
          fun _ _ => 1 / 3⟩ =
      sentForward (fun _ _ _ => 0) (fun _ _ _ => 0) (fun _ _ _ => 0) (fun _ _ => [])
        1 1 0 (1 / 2) (1 / 2) false [] 0 [(1, 2)] testingDropoutFlag
        ⟨fun _ => 1 / 2, fun _ _ => 1 / 2, fun _ _ => 1 / 2, fun _ _ => 1 / 2,
          fun _ _ => 1 / 2⟩ :=
  eval_forward_deterministic _ _ _ _ _ _ _ _ _ _ _ _ _ _ _
    (by refine ⟨fun i => ?_, fun t i => ?_, fun t i => ?_, fun t i => ?_,
          fun t i => ?_⟩ <;> constructor <;> norm_num)
    (by refine ⟨fun i => ?_, fun t i => ?_, fun t i => ?_, fun t i => ?_,
          fun t i => ?_⟩ <;> constructor <;> norm_num)

end Srl
